import Mathlib

/-!
Shallow embedding of `src/state_machine.py` (class `StateMachine`).

The engine interprets a declarative flow definition (a states document and a
transitions document, loaded from YAML by code outside the core).  We model the
flow definition as an explicit parameter `FlowDef` of every operation; the
Python module-level globals `STATES` and `TRANS` become the fields of that
parameter.  Python dicts are modelled as insertion-ordered association lists,
`None` as `Option.none`, raised `RuntimeError`s / `KeyError`s / `TypeError`s as
a `fatal` result, and the unbounded `while self.cur:` loop as a fuel-indexed
function (`none` = fuel exhausted, `some r` = the call returned or raised).
-/

namespace SM

/-- A Python dict of strings, modelled as an insertion-ordered association
list: lookup finds the first binding, update overwrites in place or appends. -/
abbrev Ctx := List (String × String)

/-- Dict lookup (`d.get(k)`): first binding for the key, if any. -/
def ctxGet : Ctx → String → Option String
  | [], _ => none
  | (k1, v) :: rest, k => if k1 = k then some v else ctxGet rest k

/-- Dict assignment (`d[k] = v`): overwrite the existing binding in place,
otherwise append at the end (Python insertion order). -/
def ctxSet : Ctx → String → String → Ctx
  | [], k, v => [(k, v)]
  | (k1, v1) :: rest, k, v =>
    if k1 = k then (k1, v) :: rest else (k1, v1) :: ctxSet rest k v

/-- Models Python `str.lower()` on the ASCII strings used by the flows. -/
def lowerStr (s : String) : String := String.mk (s.data.map Char.toLower)

/-- Python truthiness of an `Optional[str]`: `None` and `""` are falsy. -/
def truthy : Option String → Bool
  | none => false
  | some s => s != ""

/-- The `type` field of a record of the states document. -/
inductive SType
  | switch
  | action
  | subflow
  | view
deriving DecidableEq, Repr

/-- One record of the states document (`states.yaml`), with the fields the
engine reads: `type`, `expression` (switch), `flow` (sub-flow), `interface`
(view) and the optional `cs_contact` flag (action and view). -/
structure StateConfig where
  type : SType
  expression : String := ""
  flow : List String := []
  interface : String := ""
  cs_contact : Bool := false
deriving DecidableEq, Repr

/-- One entry of the transitions document: either a bare target state id, or a
descriptor carrying `target`, `error_id` and `set_context`, each optional. -/
inductive TransEnt
  | bare (target : String)
  | desc (target : Option String) (error_id : Option String) (set_context : Option Ctx)
deriving DecidableEq, Repr

/-- First-binding lookup in a string-keyed association list. -/
def lookupL {α : Type} : List (String × α) → String → Option α
  | [], _ => none
  | (k1, v) :: rest, k => if k1 = k then some v else lookupL rest k

/-- The flow definition: the module-level `STATES` and `TRANS` dictionaries. -/
structure FlowDef where
  states : List (String × StateConfig)
  trans : List (String × List (String × TransEnt))

/-- Lookup `STATES[s]` (as an `Option`; a miss is a `KeyError` at use sites). -/
def FlowDef.state (fd : FlowDef) (s : String) : Option StateConfig :=
  lookupL fd.states s

/-- Lookup `TRANS.get(state, dict()).get(key)`.  The key can be `None` (a
switch whose expression is absent from the context), which matches nothing. -/
def FlowDef.edge (fd : FlowDef) (s : String) (k : Option String) : Option TransEnt :=
  match k with
  | none => none
  | some key =>
    match lookupL fd.trans s with
    | none => none
    | some tbl => lookupL tbl key

/-- The mutable session fields of a `StateMachine` instance: `self.ctx`,
`self.cur`, `self.stack` and `self.pending_error`.  The `output_stream`
carries no behaviour and is omitted. -/
structure Machine where
  ctx : Ctx
  cur : Option String
  stack : List (String × List String)
  pending_error : Option String
deriving DecidableEq, Repr

/-- The constructor `StateMachine.__init__(ctx, output_stream=None)`:
normalize the context values (not the keys) to lowercase and start at
"resolver_branch" with an empty stack and no pending error.  The constructor
in `src/state_machine.py` has no starting-state parameter. -/
def Machine.init (c : Ctx) : Machine :=
  { ctx := c.map (fun kv => (kv.1, lowerStr kv.2))
    cur := some "resolver_branch"
    stack := []
    pending_error := none }

/-- Models the helper `_next(state, key)`.  It returns the pair
`(target_state, set_context)` and, when the entry is a descriptor dict, also
overwrites `self.pending_error` with the descriptor's `error_id` (possibly
`None`); a bare entry is used only when truthy (a non-empty string). -/
def Machine.next (m : Machine) (fd : FlowDef) (state : String) (key : Option String) :
    (Option String × Option Ctx) × Machine :=
  match fd.edge state key with
  | some (.desc target error_id set_context) =>
    ((target, set_context), { m with pending_error := error_id })
  | some (.bare t) =>
    if t != "" then ((some t, none), m) else ((none, none), m)
  | none => ((none, none), m)

/-- Models `_apply_context_updates(context_updates)`: skip when falsy
(`None` or empty), otherwise write every pair with key and value lowercased. -/
def Machine.applyContextUpdates (m : Machine) (updates : Option Ctx) : Machine :=
  match updates with
  | none => m
  | some u =>
    if u = [] then m
    else { m with ctx := u.foldl (fun c kv => ctxSet c (lowerStr kv.1) (lowerStr kv.2)) m.ctx }

/-- The body of the `while self.stack:` loop of `_pop_subflow`, on the stack
listed top-first: drop exhausted frames, then take the next member of the
first frame with members remaining. -/
def popSubflowAux : List (String × List String) → Option String × List (String × List String)
  | [] => (none, [])
  | (sub, rest) :: tl =>
    match rest with
    | [] => popSubflowAux tl
    | r0 :: rtl => (some r0, (sub, rtl) :: tl)

/-- Models `_pop_subflow()`.  In the source the top of the stack is the LAST
list element (`self.stack[-1]` / `append` / `pop`), hence the reversals. -/
def Machine.popSubflow (m : Machine) : Machine :=
  let r := popSubflowAux m.stack.reverse
  { m with cur := r.1, stack := r.2.reverse }

/-- The argument of `step`: absent, a plain event key, or a rich event dict
`{"type": ..., "context": ...}`. -/
inductive Event
  | key (k : String)
  | rich (type : String) (context : Ctx)
deriving DecidableEq, Repr

/-- The payload dict returned by a suspended `step` call.  Absent dict keys
are `none` / `false`. -/
structure Payload where
  state_id : String
  interface : Option String := none
  action : Bool := false
  error_id : Option String := none
  cs_contact : Bool := false
deriving DecidableEq, Repr

/-- The exceptions `step` can raise (all `RuntimeError` in the source, plus
the `KeyError` on a missing state record and the `TypeError` a dict-shaped
event causes when used as a lookup key outside `resolveUsernameAction`). -/
inductive Err
  | unresolvedSwitch (state : String) (val : Option String)
  | unresolvedAction (state : String)
  | unrecognizedViewEvent (state : String)
  | emptySubflow (state : String)
  | missingState (state : String)
  | typeError (state : String)
deriving DecidableEq, Repr

/-- Result of one iteration of the `while self.cur:` loop body:
continue looping (every continue path first resets `event` to `None`),
return a payload, or raise. -/
inductive IterRes
  | cont (m : Machine)
  | suspend (p : Payload) (m : Machine)
  | fatal (e : Err) (m : Machine)
deriving DecidableEq, Repr

/-- The machine carried by an iteration result. -/
def IterRes.machine : IterRes → Machine
  | .cont m => m
  | .suspend _ m => m
  | .fatal _ m => m

/-- The SWITCH branch of `step`: read `ctx[expression]`, call `_next`, apply
the returned context updates, raise if no target, else move and reset
`pending_error` to `None`. -/
def dispatchSwitch (fd : FlowDef) (m : Machine) (c : String) (cfg : StateConfig) : IterRes :=
  let r := m.next fd c (ctxGet m.ctx cfg.expression)
  let m2 := r.2.applyContextUpdates r.1.2
  match r.1.1 with
  | none => .fatal (.unresolvedSwitch c (ctxGet m.ctx cfg.expression)) m2
  | some t => .cont { m2 with cur := some t, pending_error := none }

/-- The shared tail of the ACTION branch once the event key is a string:
`_next`, apply updates, raise if no target (`is None`), else move. -/
def actionConsume (fd : FlowDef) (m : Machine) (c : String) (k : String) : IterRes :=
  let r := m.next fd c (some k)
  let m2 := r.2.applyContextUpdates r.1.2
  match r.1.1 with
  | none => .fatal (.unresolvedAction c) m2
  | some t => .cont { m2 with cur := some t }

/-- The ACTION branch of `step`: with no event, suspend with the action
payload; a rich (dict) event is unpacked only at `"resolveUsernameAction"`
(patch applied first, then its `type` used as the key); a dict event anywhere
else is an unhashable lookup key (`TypeError`). -/
def dispatchAction (fd : FlowDef) (m : Machine) (event : Option Event) (c : String)
    (cfg : StateConfig) : IterRes :=
  match event with
  | none => .suspend { state_id := c, action := true, cs_contact := cfg.cs_contact } m
  | some (.key k) => actionConsume fd m c k
  | some (.rich ty patch) =>
    if c = "resolveUsernameAction" then
      actionConsume fd (m.applyContextUpdates (some patch)) c ty
    else
      .fatal (.typeError c) m

/-- The SUB-FLOW branch of `step` (`_enter_subflow`): push the remainder of
the member sequence and move to its first member; an empty sequence is the
source's `seq[0]` IndexError. -/
def dispatchSubflow (m : Machine) (c : String) (cfg : StateConfig) : IterRes :=
  match cfg.flow with
  | [] => .fatal (.emptySubflow c) m
  | s0 :: rest => .cont { m with cur := some s0, stack := m.stack ++ [(c, rest)] }

/-- The payload-building prefix of the VIEW branch: build
`{state_id, interface}`, and when `pending_error` is truthy also emit it in
the payload and clear it on the machine. -/
def viewBuild (m : Machine) (c : String) (cfg : StateConfig) : Payload × Machine :=
  if truthy m.pending_error then
    ({ state_id := c, interface := some cfg.interface, error_id := m.pending_error,
       cs_contact := cfg.cs_contact },
     { m with pending_error := none })
  else
    ({ state_id := c, interface := some cfg.interface, cs_contact := cfg.cs_contact }, m)

/-- The event-consuming tail of the VIEW branch: `_next`, apply updates, move
when the target is truthy (`if nxt:`), otherwise raise (both raise branches
of the source are the same fatal kind). -/
def viewConsume (fd : FlowDef) (m : Machine) (c : String) (k : String) : IterRes :=
  let r := m.next fd c (some k)
  let m2 := r.2.applyContextUpdates r.1.2
  if truthy r.1.1 then .cont { m2 with cur := r.1.1 }
  else .fatal (.unrecognizedViewEvent c) m2

/-- The VIEW branch of `step`: build the payload (surfacing and clearing a
truthy pending error), suspend when no event, consume a string event, and
fail on a dict event (unhashable lookup key). -/
def dispatchView (fd : FlowDef) (m : Machine) (event : Option Event) (c : String)
    (cfg : StateConfig) : IterRes :=
  match event with
  | none => .suspend (viewBuild m c cfg).1 (viewBuild m c cfg).2
  | some (.key k) => viewConsume fd (viewBuild m c cfg).2 c k
  | some (.rich _ _) => .fatal (.typeError c) (viewBuild m c cfg).2

/-- One iteration of the `while self.cur:` loop body of `step`, dispatching
on the type of the current state `c`. -/
def dispatch (fd : FlowDef) (m : Machine) (event : Option Event) (c : String) : IterRes :=
  match fd.state c with
  | none => .fatal (.missingState c) m
  | some cfg =>
    match cfg.type with
    | .switch => dispatchSwitch fd m c cfg
    | .action => dispatchAction fd m event c cfg
    | .subflow => dispatchSubflow m c cfg
    | .view => dispatchView fd m event c cfg

/-- Result of a terminated `step` call: a payload (suspended), `None`
(finished), or a raised exception. -/
inductive StepRes
  | suspended (p : Payload) (m : Machine)
  | finished (m : Machine)
  | fatal (e : Err) (m : Machine)
deriving DecidableEq, Repr

/-- The machine after a terminated `step` call. -/
def StepRes.machine : StepRes → Machine
  | .suspended _ m => m
  | .finished m => m
  | .fatal _ m => m

/-- Whether a terminated `step` call returned the finished marker (`None`). -/
def StepRes.isFinished : StepRes → Bool
  | .finished _ => true
  | _ => false

/-- Models `step(event)` with an explicit fuel bound on loop iterations
(`none` = fuel exhausted before the call terminated).  The loop guard
`while self.cur:` is Python truthiness: both `None` and the empty string are
falsy, exit the loop and make the call return `None` (the finished marker).
Every continue path of the source resets `event = None`, so the recursion
passes `none`. -/
def stepLoop (fd : FlowDef) : Nat → Machine → Option Event → Option StepRes
  | 0, _, _ => none
  | n + 1, m, event =>
    match m.cur with
    | none => some (.finished m)
    | some c =>
      if c = "" then some (.finished m)
      else
        match dispatch fd m event c with
        | .cont m1 => stepLoop fd n m1 none
        | .suspend p m1 => some (.suspended p m1)
        | .fatal e m1 => some (.fatal e m1)

/-! ### Frame lemmas for the helpers -/

lemma next_cur (m : Machine) (fd : FlowDef) (s : String) (k : Option String) :
    ((m.next fd s k).2).cur = m.cur := by
  unfold Machine.next
  cases fd.edge s k with
  | none => rfl
  | some ent => cases ent with
    | desc t e sc => rfl
    | bare t => by_cases ht : (t != "") = true <;> simp [ht]

lemma next_stack (m : Machine) (fd : FlowDef) (s : String) (k : Option String) :
    ((m.next fd s k).2).stack = m.stack := by
  unfold Machine.next
  cases fd.edge s k with
  | none => rfl
  | some ent => cases ent with
    | desc t e sc => rfl
    | bare t => by_cases ht : (t != "") = true <;> simp [ht]

lemma next_ctx (m : Machine) (fd : FlowDef) (s : String) (k : Option String) :
    ((m.next fd s k).2).ctx = m.ctx := by
  unfold Machine.next
  cases fd.edge s k with
  | none => rfl
  | some ent => cases ent with
    | desc t e sc => rfl
    | bare t => by_cases ht : (t != "") = true <;> simp [ht]

lemma next_pending (m : Machine) (fd : FlowDef) (s : String) (k : Option String) :
    ((m.next fd s k).2).pending_error =
      (match fd.edge s k with
       | some (.desc _ e _) => e
       | _ => m.pending_error) := by
  unfold Machine.next
  cases fd.edge s k with
  | none => rfl
  | some ent => cases ent with
    | desc t e sc => rfl
    | bare t => by_cases ht : (t != "") = true <;> simp [ht]

lemma next_fst_pure (fd : FlowDef) (s : String) (k : Option String) (m m1 : Machine) :
    (m.next fd s k).1 = (m1.next fd s k).1 := by
  unfold Machine.next
  cases fd.edge s k with
  | none => rfl
  | some ent => cases ent with
    | desc t e sc => rfl
    | bare t => by_cases ht : (t != "") = true <;> simp [ht]

lemma applyCU_cur (m : Machine) (u : Option Ctx) :
    (m.applyContextUpdates u).cur = m.cur := by
  unfold Machine.applyContextUpdates
  cases u with
  | none => rfl
  | some l => by_cases h : l = [] <;> simp [h]

lemma applyCU_stack (m : Machine) (u : Option Ctx) :
    (m.applyContextUpdates u).stack = m.stack := by
  unfold Machine.applyContextUpdates
  cases u with
  | none => rfl
  | some l => by_cases h : l = [] <;> simp [h]

lemma applyCU_pending (m : Machine) (u : Option Ctx) :
    (m.applyContextUpdates u).pending_error = m.pending_error := by
  unfold Machine.applyContextUpdates
  cases u with
  | none => rfl
  | some l => by_cases h : l = [] <;> simp [h]

/-! ### Shape lemmas for one loop iteration -/

/-- Invariant of one loop iteration: the stack only grows by appending, the
current state stays or moves to a named state, and a continue always points at
a named state. -/
def GoodIter (m : Machine) (r : IterRes) : Prop :=
  (∃ ext, r.machine.stack = m.stack ++ ext) ∧
  ((∃ t, r.machine.cur = some t) ∨ r.machine.cur = m.cur) ∧
  (∀ m1, r = .cont m1 → ∃ t, m1.cur = some t)

lemma goodIter_of_fatal (m m1 : Machine) (err : Err) (hs : m1.stack = m.stack)
    (hc : m1.cur = m.cur) : GoodIter m (.fatal err m1) :=
  ⟨⟨[], by simp [IterRes.machine, hs]⟩, Or.inr (by simp [IterRes.machine, hc]),
    fun m2 h => absurd h (by simp)⟩

lemma goodIter_of_suspend (m m1 : Machine) (p : Payload) (hs : m1.stack = m.stack)
    (hc : m1.cur = m.cur) : GoodIter m (.suspend p m1) :=
  ⟨⟨[], by simp [IterRes.machine, hs]⟩, Or.inr (by simp [IterRes.machine, hc]),
    fun m2 h => absurd h (by simp)⟩

lemma goodIter_dispatchSwitch (fd : FlowDef) (m : Machine) (c : String) (cfg : StateConfig) :
    GoodIter m (dispatchSwitch fd m c cfg) := by
  have hstk := next_stack m fd c (ctxGet m.ctx cfg.expression)
  have hcur := next_cur m fd c (ctxGet m.ctx cfg.expression)
  rcases hr : m.next fd c (ctxGet m.ctx cfg.expression) with ⟨⟨nxt, cu⟩, m1⟩
  rw [hr] at hstk hcur
  simp at hstk hcur
  unfold dispatchSwitch
  simp only [hr]
  cases nxt with
  | none => exact goodIter_of_fatal m _ _ (by simp [applyCU_stack, hstk]) (by simp [applyCU_cur, hcur])
  | some t =>
    exact ⟨⟨[], by simp [IterRes.machine, applyCU_stack, hstk]⟩,
      Or.inl ⟨t, rfl⟩,
      fun m2 h => ⟨t, by injection h with h2; rw [← h2]⟩⟩

lemma goodIter_actionConsume (fd : FlowDef) (m : Machine) (c : String) (k : String) :
    GoodIter m (actionConsume fd m c k) := by
  have hstk := next_stack m fd c (some k)
  have hcur := next_cur m fd c (some k)
  rcases hr : m.next fd c (some k) with ⟨⟨nxt, cu⟩, m1⟩
  rw [hr] at hstk hcur
  simp at hstk hcur
  unfold actionConsume
  simp only [hr]
  cases nxt with
  | none => exact goodIter_of_fatal m _ _ (by simp [applyCU_stack, hstk]) (by simp [applyCU_cur, hcur])
  | some t =>
    exact ⟨⟨[], by simp [IterRes.machine, applyCU_stack, hstk]⟩,
      Or.inl ⟨t, rfl⟩,
      fun m2 h => ⟨t, by injection h with h2; rw [← h2]⟩⟩

lemma viewBuild_snd_cur (m : Machine) (c : String) (cfg : StateConfig) :
    (viewBuild m c cfg).2.cur = m.cur := by
  unfold viewBuild; split <;> rfl

lemma viewBuild_snd_stack (m : Machine) (c : String) (cfg : StateConfig) :
    (viewBuild m c cfg).2.stack = m.stack := by
  unfold viewBuild; split <;> rfl

lemma viewBuild_snd_ctx (m : Machine) (c : String) (cfg : StateConfig) :
    (viewBuild m c cfg).2.ctx = m.ctx := by
  unfold viewBuild; split <;> rfl

lemma viewBuild_pending_falsy (m : Machine) (c : String) (cfg : StateConfig) :
    truthy (viewBuild m c cfg).2.pending_error = false := by
  unfold viewBuild
  split
  · simp [truthy]
  · simp_all

lemma goodIter_viewConsume (fd : FlowDef) (m : Machine) (c : String) (k : String) :
    GoodIter m (viewConsume fd m c k) := by
  have hstk := next_stack m fd c (some k)
  have hcur := next_cur m fd c (some k)
  rcases hr : m.next fd c (some k) with ⟨⟨nxt, cu⟩, m1⟩
  rw [hr] at hstk hcur
  simp at hstk hcur
  unfold viewConsume
  simp only [hr]
  by_cases htr : truthy nxt = true
  · rw [if_pos htr]
    cases nxt with
    | none => simp [truthy] at htr
    | some t =>
      exact ⟨⟨[], by simp [IterRes.machine, applyCU_stack, hstk]⟩,
        Or.inl ⟨t, rfl⟩,
        fun m2 h => ⟨t, by injection h with h2; rw [← h2]⟩⟩
  · rw [if_neg htr]
    exact goodIter_of_fatal m _ _ (by simp [applyCU_stack, hstk]) (by simp [applyCU_cur, hcur])

lemma goodIter_dispatchAction (fd : FlowDef) (m : Machine) (e : Option Event) (c : String)
    (cfg : StateConfig) : GoodIter m (dispatchAction fd m e c cfg) := by
  cases e with
  | none => exact goodIter_of_suspend m m _ rfl rfl
  | some ev =>
    cases ev with
    | key k => exact goodIter_actionConsume fd m c k
    | rich ty patch =>
      simp only [dispatchAction]
      by_cases hc : c = "resolveUsernameAction"
      · rw [if_pos hc]
        obtain ⟨⟨ext, hstk⟩, hcu, hcont⟩ :=
          goodIter_actionConsume fd (m.applyContextUpdates (some patch)) c ty
        refine ⟨⟨ext, ?_⟩, ?_, hcont⟩
        · rw [hstk, applyCU_stack]
        · rcases hcu with ⟨t, ht⟩ | heq
          · exact Or.inl ⟨t, ht⟩
          · exact Or.inr (by rw [heq, applyCU_cur])
      · rw [if_neg hc]
        exact goodIter_of_fatal m m _ rfl rfl

lemma goodIter_dispatchSubflow (m : Machine) (c : String) (cfg : StateConfig) :
    GoodIter m (dispatchSubflow m c cfg) := by
  unfold dispatchSubflow
  cases hf : cfg.flow with
  | nil => exact goodIter_of_fatal m m _ rfl rfl
  | cons s0 rest =>
    exact ⟨⟨[(c, rest)], by simp [IterRes.machine]⟩,
      Or.inl ⟨s0, rfl⟩,
      fun m1 h => ⟨s0, by injection h with h2; rw [← h2]⟩⟩

lemma goodIter_dispatchView (fd : FlowDef) (m : Machine) (e : Option Event) (c : String)
    (cfg : StateConfig) : GoodIter m (dispatchView fd m e c cfg) := by
  have hcu := viewBuild_snd_cur m c cfg
  have hst2 := viewBuild_snd_stack m c cfg
  cases e with
  | none => exact goodIter_of_suspend m _ _ hst2 hcu
  | some ev =>
    cases ev with
    | key k =>
      simp only [dispatchView]
      obtain ⟨⟨ext, hstk⟩, hcur2, hcont⟩ := goodIter_viewConsume fd (viewBuild m c cfg).2 c k
      refine ⟨⟨ext, by rw [hstk, hst2]⟩, ?_, hcont⟩
      rcases hcur2 with ⟨t, ht⟩ | heq2
      · exact Or.inl ⟨t, ht⟩
      · exact Or.inr (by rw [heq2, hcu])
    | rich ty patch => exact goodIter_of_fatal m _ _ hst2 hcu

lemma dispatch_eq_missing (fd : FlowDef) (m : Machine) (e : Option Event) (c : String)
    (hst : fd.state c = none) : dispatch fd m e c = .fatal (.missingState c) m := by
  unfold dispatch; simp only [hst]

lemma dispatch_eq_switch (fd : FlowDef) (m : Machine) (e : Option Event) (c : String)
    (cfg : StateConfig) (hst : fd.state c = some cfg) (hty : cfg.type = .switch) :
    dispatch fd m e c = dispatchSwitch fd m c cfg := by
  unfold dispatch; simp only [hst, hty]

lemma dispatch_eq_action (fd : FlowDef) (m : Machine) (e : Option Event) (c : String)
    (cfg : StateConfig) (hst : fd.state c = some cfg) (hty : cfg.type = .action) :
    dispatch fd m e c = dispatchAction fd m e c cfg := by
  unfold dispatch; simp only [hst, hty]

lemma dispatch_eq_subflow (fd : FlowDef) (m : Machine) (e : Option Event) (c : String)
    (cfg : StateConfig) (hst : fd.state c = some cfg) (hty : cfg.type = .subflow) :
    dispatch fd m e c = dispatchSubflow m c cfg := by
  unfold dispatch; simp only [hst, hty]

lemma dispatch_eq_view (fd : FlowDef) (m : Machine) (e : Option Event) (c : String)
    (cfg : StateConfig) (hst : fd.state c = some cfg) (hty : cfg.type = .view) :
    dispatch fd m e c = dispatchView fd m e c cfg := by
  unfold dispatch; simp only [hst, hty]

lemma goodIter_dispatch (fd : FlowDef) (m : Machine) (e : Option Event) (c : String) :
    GoodIter m (dispatch fd m e c) := by
  cases hst : fd.state c with
  | none =>
    rw [dispatch_eq_missing fd m e c hst]
    exact goodIter_of_fatal m m _ rfl rfl
  | some cfg =>
    cases hty : cfg.type with
    | switch => rw [dispatch_eq_switch fd m e c cfg hst hty]; exact goodIter_dispatchSwitch ..
    | action => rw [dispatch_eq_action fd m e c cfg hst hty]; exact goodIter_dispatchAction ..
    | subflow => rw [dispatch_eq_subflow fd m e c cfg hst hty]; exact goodIter_dispatchSubflow ..
    | view => rw [dispatch_eq_view fd m e c cfg hst hty]; exact goodIter_dispatchView ..

/-! ### Where the loop can suspend -/

lemma applyCU_none (m : Machine) : m.applyContextUpdates none = m := rfl

lemma next_of_edge_none (fd : FlowDef) (m : Machine) (s : String) (k : Option String)
    (h : fd.edge s k = none) : m.next fd s k = ((none, none), m) := by
  unfold Machine.next; rw [h]

lemma dispatchSwitch_ne_suspend (fd : FlowDef) (m : Machine) (c : String) (cfg : StateConfig)
    (p : Payload) (m1 : Machine) : dispatchSwitch fd m c cfg ≠ .suspend p m1 := by
  unfold dispatchSwitch
  rcases m.next fd c (ctxGet m.ctx cfg.expression) with ⟨⟨nxt, cu⟩, mr⟩
  cases nxt <;> simp

lemma actionConsume_ne_suspend (fd : FlowDef) (m : Machine) (c : String) (k : String)
    (p : Payload) (m1 : Machine) : actionConsume fd m c k ≠ .suspend p m1 := by
  unfold actionConsume
  rcases m.next fd c (some k) with ⟨⟨nxt, cu⟩, mr⟩
  cases nxt <;> simp

lemma viewConsume_ne_suspend (fd : FlowDef) (m : Machine) (c : String) (k : String)
    (p : Payload) (m1 : Machine) : viewConsume fd m c k ≠ .suspend p m1 := by
  unfold viewConsume
  rcases m.next fd c (some k) with ⟨⟨nxt, cu⟩, mr⟩
  cases nxt with
  | none => simp [truthy]
  | some t => by_cases ht : (t != "") = true <;> simp [truthy, ht]

lemma dispatchSubflow_ne_suspend (m : Machine) (c : String) (cfg : StateConfig)
    (p : Payload) (m1 : Machine) : dispatchSubflow m c cfg ≠ .suspend p m1 := by
  unfold dispatchSubflow
  cases cfg.flow <;> simp

/-- A machine at a suspend point that a probing `step` call (no input) leaves
untouched: a truthy (non-empty) current state naming an action, or a view
with no truthy pending error.  A falsy current state never suspends — the
loop guard returns the finished marker instead. -/
def CanProbe (fd : FlowDef) (m : Machine) : Prop :=
  ∃ c cfg, m.cur = some c ∧ c ≠ "" ∧ fd.state c = some cfg ∧
    (cfg.type = .action ∨ (cfg.type = .view ∧ truthy m.pending_error = false))

/-- The payload a probing `step` call returns at a suspend point. -/
def probePayload (fd : FlowDef) (m : Machine) : Payload :=
  match m.cur with
  | none => { state_id := "" }
  | some c =>
    match fd.state c with
    | none => { state_id := "" }
    | some cfg =>
      match cfg.type with
      | .action => { state_id := c, action := true, cs_contact := cfg.cs_contact }
      | .view => { state_id := c, interface := some cfg.interface, cs_contact := cfg.cs_contact }
      | _ => { state_id := "" }

lemma dispatch_suspend_probe (fd : FlowDef) (m : Machine) (e : Option Event) (c : String)
    (p : Payload) (m1 : Machine) (hcur : m.cur = some c) (hcc : c ≠ "")
    (h : dispatch fd m e c = .suspend p m1) : CanProbe fd m1 := by
  cases hst : fd.state c with
  | none => rw [dispatch_eq_missing fd m e c hst] at h; exact absurd h (by simp)
  | some cfg =>
    cases hty : cfg.type with
    | switch =>
      rw [dispatch_eq_switch fd m e c cfg hst hty] at h
      exact absurd h (dispatchSwitch_ne_suspend fd m c cfg p m1)
    | action =>
      rw [dispatch_eq_action fd m e c cfg hst hty] at h
      cases e with
      | none =>
        simp only [dispatchAction] at h
        injection h with hp hm
        exact ⟨c, cfg, by rw [← hm, hcur], hcc, hst, Or.inl hty⟩
      | some ev =>
        cases ev with
        | key k =>
          simp only [dispatchAction] at h
          exact absurd h (actionConsume_ne_suspend fd m c k p m1)
        | rich ty patch =>
          simp only [dispatchAction] at h
          by_cases hc : c = "resolveUsernameAction"
          · rw [if_pos hc] at h; exact absurd h (actionConsume_ne_suspend fd (m.applyContextUpdates (some patch)) c ty p m1)
          · rw [if_neg hc] at h; exact absurd h (by simp)
    | subflow =>
      rw [dispatch_eq_subflow fd m e c cfg hst hty] at h
      exact absurd h (dispatchSubflow_ne_suspend m c cfg p m1)
    | view =>
      rw [dispatch_eq_view fd m e c cfg hst hty] at h
      cases e with
      | none =>
        simp only [dispatchView] at h
        injection h with hp hm
        refine ⟨c, cfg, ?_, hcc, hst, Or.inr ⟨hty, ?_⟩⟩
        · rw [← hm, viewBuild_snd_cur, hcur]
        · rw [← hm]; exact viewBuild_pending_falsy m c cfg
      | some ev =>
        cases ev with
        | key k =>
          simp only [dispatchView] at h
          exact absurd h (viewConsume_ne_suspend fd (viewBuild m c cfg).2 c k p m1)
        | rich ty patch =>
          simp only [dispatchView] at h
          exact absurd h (by simp)

/-! ### Unfolding equations for the fueled loop -/

lemma stepLoop_succ (fd : FlowDef) (n : Nat) (m : Machine) (e : Option Event) (c : String)
    (hcur : m.cur = some c) (hcc : c ≠ "") :
    stepLoop fd (n + 1) m e =
      match dispatch fd m e c with
      | .cont m1 => stepLoop fd n m1 none
      | .suspend p m1 => some (.suspended p m1)
      | .fatal er m1 => some (.fatal er m1) := by
  rw [stepLoop, hcur]
  exact if_neg hcc

lemma stepLoop_succ_finished (fd : FlowDef) (n : Nat) (m : Machine) (e : Option Event)
    (hcur : m.cur = none) : stepLoop fd (n + 1) m e = some (.finished m) := by
  rw [stepLoop, hcur]

lemma stepLoop_succ_empty (fd : FlowDef) (n : Nat) (m : Machine) (e : Option Event)
    (c : String) (hcur : m.cur = some c) (hcc : c = "") :
    stepLoop fd (n + 1) m e = some (.finished m) := by
  rw [stepLoop, hcur]
  exact if_pos hcc

/-- Along a terminated `step` call: the stack never shrinks, a present
current state is never set back to `None`, and a finished result only arises
from a falsy current state — `None`, or the empty string a resolved edge may
have installed. -/
lemma stepLoop_mono (fd : FlowDef) (fuel : Nat) :
    ∀ (m : Machine) (e : Option Event) (r : StepRes),
      stepLoop fd fuel m e = some r →
      m.stack.length ≤ r.machine.stack.length ∧
      (m.cur.isSome = true → r.machine.cur.isSome = true) ∧
      (∀ mf, r = .finished mf → truthy mf.cur = false) := by
  induction fuel with
  | zero => intro m e r h; simp [stepLoop] at h
  | succ n ih =>
    intro m e r h
    cases hcur : m.cur with
    | none =>
      rw [stepLoop_succ_finished fd n m e hcur] at h
      simp at h
      subst h
      refine ⟨le_refl _, fun hs => absurd hs (by simp [hcur]), ?_⟩
      intro mf hf
      injection hf with h2
      rw [← h2, hcur]
      rfl
    | some c =>
      by_cases hcc : c = ""
      · rw [stepLoop_succ_empty fd n m e c hcur hcc] at h
        simp at h
        subst h
        refine ⟨le_refl _, fun hs => by simp [StepRes.machine, hcur], ?_⟩
        intro mf hf
        injection hf with h2
        rw [← h2, hcur, hcc]
        rfl
      · rw [stepLoop_succ fd n m e c hcur hcc] at h
        obtain ⟨⟨ext, hstk⟩, hcu, hcont⟩ := goodIter_dispatch fd m e c
        cases hd : dispatch fd m e c with
        | cont m1 =>
          rw [hd] at h
          obtain ⟨ih1, ih2, ih3⟩ := ih m1 none r h
          obtain ⟨t, ht⟩ := hcont m1 hd
          refine ⟨le_trans ?_ ih1, fun _ => ih2 (by simp [ht]), ih3⟩
          rw [hd] at hstk
          simp [IterRes.machine] at hstk
          simp [hstk]
        | suspend p m1 =>
          rw [hd] at h
          simp at h
          obtain ⟨rfl, rfl⟩ := h
          rw [hd] at hstk hcu
          simp [IterRes.machine] at hstk hcu
          refine ⟨by simp [StepRes.machine, hstk], fun hs => ?_, ?_⟩
          · rcases hcu with ⟨t, ht⟩ | heq
            · simp [StepRes.machine, ht]
            · simp [StepRes.machine, heq, hcur]
          · intro mf hf
            exact absurd hf (by simp)
        | fatal err m1 =>
          rw [hd] at h
          simp at h
          obtain ⟨rfl, rfl⟩ := h
          rw [hd] at hstk hcu
          simp [IterRes.machine] at hstk hcu
          refine ⟨by simp [StepRes.machine, hstk], fun hs => ?_, ?_⟩
          · rcases hcu with ⟨t, ht⟩ | heq
            · simp [StepRes.machine, ht]
            · simp [StepRes.machine, heq, hcur]
          · intro mf hf
            exact absurd hf (by simp)

/-! ### Context-write lemmas -/

lemma ctxSet_mem (c : Ctx) (k v : String) (kv : String × String)
    (h : kv ∈ ctxSet c k v) : kv ∈ c ∨ kv = (k, v) := by
  induction c with
  | nil =>
    unfold ctxSet at h
    rcases List.mem_singleton.mp h with h1
    exact Or.inr h1
  | cons hd tl ih =>
    obtain ⟨k1, v1⟩ := hd
    unfold ctxSet at h
    by_cases hk : k1 = k
    · rw [if_pos hk] at h
      rcases List.mem_cons.mp h with h1 | h1
      · exact Or.inr (by rw [h1, hk])
      · exact Or.inl (List.mem_cons_of_mem _ h1)
    · rw [if_neg hk] at h
      rcases List.mem_cons.mp h with h1 | h1
      · exact Or.inl (by rw [h1]; exact List.mem_cons_self ..)
      · rcases ih h1 with h2 | h2
        · exact Or.inl (List.mem_cons_of_mem _ h2)
        · exact Or.inr h2

lemma foldl_ctxSet_mem (u : Ctx) :
    ∀ (c0 : Ctx) (kv : String × String),
      kv ∈ u.foldl (fun c p => ctxSet c (lowerStr p.1) (lowerStr p.2)) c0 →
      kv ∈ c0 ∨ ∃ p, p ∈ u ∧ kv = (lowerStr p.1, lowerStr p.2) := by
  induction u with
  | nil => intro c0 kv h; exact Or.inl h
  | cons hd tl ih =>
    intro c0 kv h
    rw [List.foldl_cons] at h
    rcases ih _ kv h with h1 | ⟨p, hp, hkv⟩
    · rcases ctxSet_mem _ _ _ _ h1 with h2 | h2
      · exact Or.inl h2
      · exact Or.inr ⟨hd, List.mem_cons_self .., h2⟩
    · exact Or.inr ⟨p, List.mem_cons_of_mem _ hp, hkv⟩

lemma applyCU_mem (m : Machine) (u : Ctx) (kv : String × String)
    (h : kv ∈ (m.applyContextUpdates (some u)).ctx) :
    kv ∈ m.ctx ∨ ∃ p, p ∈ u ∧ kv = (lowerStr p.1, lowerStr p.2) := by
  simp only [Machine.applyContextUpdates] at h
  by_cases hu : u = []
  · rw [if_pos hu] at h
    exact Or.inl h
  · rw [if_neg hu] at h
    exact foldl_ctxSet_mem u m.ctx kv h

lemma ctxGet_ctxSet (c : Ctx) (k v : String) : ctxGet (ctxSet c k v) k = some v := by
  induction c with
  | nil => simp [ctxSet, ctxGet]
  | cons hd tl ih =>
    obtain ⟨k1, v1⟩ := hd
    by_cases hk : k1 = k
    · simp [ctxSet, ctxGet, hk]
    · simp [ctxSet, ctxGet, hk, ih]

/-! ### Concrete fixtures used by witnesses and counterexamples -/

/-- A one-view flow definition. -/
def fdView : FlowDef :=
  { states := [("v", { type := .view, interface := "V" })], trans := [] }

/-- A session suspended at the view "v". -/
def mView : Machine :=
  { ctx := [("a", "1")], cur := some "v", stack := [], pending_error := none }

/-! ### C2 -/

/-- C2: a `step` call that suspends always leaves the session at a probe-safe
point (an action, or a view whose pending error is already cleared), and
probing such a session with no input suspends again at the very same machine
state — Context, stack, pending error and current state all unchanged — with
the payload computed from that state alone, hence identical on every probe. -/
theorem step_probe_idempotent (fd : FlowDef) :
    (∀ (fuel : Nat) (m : Machine) (e : Option Event) (p : Payload) (m1 : Machine),
      stepLoop fd fuel m e = some (.suspended p m1) → CanProbe fd m1) ∧
    (∀ m : Machine, CanProbe fd m → ∀ fuel : Nat,
      stepLoop fd (fuel + 1) m none = some (.suspended (probePayload fd m) m)) := by
  constructor
  · intro fuel
    induction fuel with
    | zero => intro m e p m1 h; simp [stepLoop] at h
    | succ n ih =>
      intro m e p m1 h
      cases hcur : m.cur with
      | none =>
        rw [stepLoop_succ_finished fd n m e hcur] at h
        simp at h
      | some c =>
        by_cases hcc : c = ""
        · rw [stepLoop_succ_empty fd n m e c hcur hcc] at h
          simp at h
        · rw [stepLoop_succ fd n m e c hcur hcc] at h
          cases hd : dispatch fd m e c with
          | cont m2 =>
            rw [hd] at h
            exact ih m2 none p m1 h
          | suspend p2 m2 =>
            rw [hd] at h
            simp at h
            obtain ⟨hp, hm⟩ := h
            rw [← hm]
            exact dispatch_suspend_probe fd m e c p2 m2 hcur hcc hd
          | fatal er m2 =>
            rw [hd] at h
            simp at h
  · rintro m ⟨c, cfg, hcur, hcc, hst, hk⟩ fuel
    rw [stepLoop_succ fd fuel m none c hcur hcc]
    rcases hk with hty | ⟨hty, hpend⟩
    · rw [dispatch_eq_action fd m none c cfg hst hty]
      simp only [dispatchAction, probePayload, hcur, hst, hty]
    · rw [dispatch_eq_view fd m none c cfg hst hty]
      simp only [dispatchView, viewBuild, hpend, Bool.false_eq_true, if_false,
        probePayload, hcur, hst, hty]

/-- C2 witness: probing the concrete suspended view session `mView` returns
its payload and the unchanged machine. -/
theorem step_probe_idempotent_witness :
    CanProbe fdView mView ∧
    stepLoop fdView 1 mView none = some (.suspended (probePayload fdView mView) mView) :=
  ⟨⟨"v", { type := .view, interface := "V" }, rfl, by decide, rfl, Or.inr ⟨rfl, rfl⟩⟩,
    (step_probe_idempotent fdView).2 mView
      ⟨"v", { type := .view, interface := "V" }, rfl, by decide, rfl, Or.inr ⟨rfl, rfl⟩⟩ 0⟩

/-! ### C10 -/

/-- Flow for the C10 counterexample: the default starting switch resolves
value "1" through a descriptor edge whose target is the empty string. -/
def fdFin : FlowDef :=
  { states := [("resolver_branch", { type := .switch, expression := "x" })]
    trans := [("resolver_branch", [("1", .desc (some "") none none)])] }

/-- The session after the empty-string target is installed: finished in the
program's sense (`while self.cur:` is falsy) with the current state id still
present (the empty string, not None). -/
def mFin : Machine :=
  { ctx := [("x", "1")], cur := some "", stack := [], pending_error := none }

/-- C10 counterexample: a session built by the public constructor CAN return
the finished marker: the switch's descriptor edge carries target "", which
passes the `if nxt is None` check and is assigned to `self.cur`, and the
loop guard `while self.cur:` treats the empty string as falsy, so `step`
returns None — with the stack untouched and the current state id never set
to None. -/
theorem step_returns_finished_counterexample :
    stepLoop fdFin 10 (Machine.init [("x", "1")]) none = some (.finished mFin) ∧
    StepRes.isFinished (.finished mFin) = true ∧
    mFin.cur = some "" ∧ mFin.cur ≠ none := by decide

/-- C10 (amended): the stepping loop never invokes the pop/advance
operation: across any terminated `step` call the sub-flow stack never
shrinks and a present current state id is never set back to absent (None);
but `step` can return the finished marker — exactly when a resolved edge has
installed the empty string as the current state, which the `while self.cur:`
guard treats as falsy — never through the stack emptying. -/
theorem step_never_pops_finishes_only_on_empty (fd : FlowDef) (fuel : Nat) (m : Machine)
    (e : Option Event) (r : StepRes) (hcur : m.cur.isSome = true)
    (h : stepLoop fd fuel m e = some r) :
    r.machine.cur.isSome = true ∧
    m.stack.length ≤ r.machine.stack.length ∧
    (∀ mf, r = .finished mf → mf.cur = some "") := by
  obtain ⟨h1, h2, h3⟩ := stepLoop_mono fd fuel m e r h
  refine ⟨h2 hcur, h1, ?_⟩
  intro mf hf
  have h4 := h3 mf hf
  have h5 : mf.cur.isSome = true := by
    have h6 := h2 hcur
    rw [hf] at h6
    exact h6
  cases hmf : mf.cur with
  | none => rw [hmf] at h5; simp at h5
  | some cf =>
    rw [hmf] at h4
    simp [truthy] at h4
    rw [h4]

/-- C10 witness: the amended theorem applied to the concrete finishing run of
`fdFin`: the current state stays present, the stack does not shrink, and the
finish happens exactly at the empty-string state. -/
theorem step_never_pops_finishes_only_on_empty_witness :
    (StepRes.finished mFin).machine.cur.isSome = true ∧
    (Machine.init [("x", "1")]).stack.length ≤ (StepRes.finished mFin).machine.stack.length ∧
    (∀ mf, StepRes.finished mFin = .finished mf → mf.cur = some "") :=
  step_never_pops_finishes_only_on_empty fdFin 10 (Machine.init [("x", "1")]) none
    (.finished mFin) (by decide) (by decide)

/-! ### C5 -/

/-- C5: the constructor of `src/state_machine.py` takes no starting-state
argument; every session it builds starts at the fixed state
"resolver_branch", so a caller cannot resume a re-hydrated session at
another state through construction. -/
theorem init_no_starting_state (c : Ctx) :
    (Machine.init c).cur = some "resolver_branch" ∧
    (Machine.init c).stack = [] ∧
    (Machine.init c).pending_error = none :=
  ⟨rfl, rfl, rfl⟩

/-! ### C4 -/

/-- A descriptor edge used by the C4 counterexample. -/
def fdDesc : FlowDef :=
  { states := [], trans := [("s", [("k", .desc (some "t") (some "boom") none)])] }

/-- A session with no pending error, about to resolve through `fdDesc`. -/
def mDesc : Machine :=
  { ctx := [], cur := some "s", stack := [], pending_error := none }

/-- C4 counterexample: `_next` is not mutation-free — resolving the
descriptor edge ("s", "k") of `fdDesc` overwrites the session's pending
error tag (none becomes "boom"), so the session is mutated. -/
theorem next_mutates_pending_counterexample :
    (mDesc.next fdDesc "s" (some "k")).2.pending_error = some "boom" ∧
    mDesc.pending_error = none ∧
    (mDesc.next fdDesc "s" (some "k")).2 ≠ mDesc := by decide

/-- C4 (amended): `_next` is pure in its returned (target, patch) pair —
which depends only on the flow definition, the state and the key — and
leaves Context, stack and current state untouched; but it does write the
pending error tag: a descriptor edge overwrites it with the descriptor's
`error_id` (possibly clearing it), any other lookup leaves it unchanged. -/
theorem next_frame_effect (fd : FlowDef) (m m1 : Machine) (s : String) (k : Option String) :
    ((m.next fd s k).2).ctx = m.ctx ∧
    ((m.next fd s k).2).stack = m.stack ∧
    ((m.next fd s k).2).cur = m.cur ∧
    ((m.next fd s k).2).pending_error =
      (match fd.edge s k with
       | some (.desc _ e _) => e
       | _ => m.pending_error) ∧
    (m.next fd s k).1 = (m1.next fd s k).1 :=
  ⟨next_ctx m fd s k, next_stack m fd s k, next_cur m fd s k,
    next_pending m fd s k, next_fst_pure fd s k m m1⟩

/-! ### C3 -/

/-- C3 counterexample: constructing with the mixed-case key "Login_Method"
does NOT produce a "login_method" binding — the constructor lowercases only
the value, keeping the key verbatim. -/
theorem init_key_not_lowercased_counterexample :
    ctxGet (Machine.init [("Login_Method", "SSO")]).ctx "login_method" = none ∧
    ctxGet (Machine.init [("Login_Method", "SSO")]).ctx "Login_Method" = some "sso" := by
  decide

/-- C3 (amended): the patch-application path (used for transition context
patches and rich-event payloads) lowercases both key and value of every pair
it writes, but initial construction lowercases only the values and keeps the
keys as supplied: `{"Login_Method": "SSO"}` yields
`context["Login_Method"] == "sso"` and no "login_method" binding. -/
theorem ctx_write_normalization :
    (∀ c : Ctx, (Machine.init c).ctx = c.map (fun kv => (kv.1, lowerStr kv.2))) ∧
    (∀ (m : Machine) (u : Ctx) (kv : String × String),
      kv ∈ (m.applyContextUpdates (some u)).ctx →
      kv ∈ m.ctx ∨ ∃ p, p ∈ u ∧ kv = (lowerStr p.1, lowerStr p.2)) ∧
    ctxGet (Machine.init [("Login_Method", "SSO")]).ctx "Login_Method" = some "sso" :=
  ⟨fun _ => rfl, applyCU_mem, by decide⟩

/-- A blank session used by the C3 witness. -/
def mBlank : Machine :=
  { ctx := [], cur := none, stack := [], pending_error := none }

/-- C3 witness: a concrete patched-in pair is the lowercased image of a
patch pair. -/
theorem ctx_write_normalization_witness :
    ("flag", "on") ∈ (mBlank.applyContextUpdates (some [("Flag", "ON")])).ctx ∧
    (("flag", "on") ∈ mBlank.ctx ∨
      ∃ p, p ∈ [("Flag", "ON")] ∧ ("flag", "on") = (lowerStr p.1, lowerStr p.2)) :=
  ⟨by decide,
    ctx_write_normalization.2.1 mBlank [("Flag", "ON")] ("flag", "on") (by decide)⟩

/-! ### C6 -/

/-- C6: when a view builds its output payload while an error tag is pending,
the payload carries that tag and the machine's pending error is cleared —
with Context, stack and current state untouched — and an immediately repeated
probe of the resulting session returns the same payload WITHOUT the tag, so
the tag is surfaced exactly once. -/
theorem view_surfaces_and_clears_pending (fd : FlowDef) (m : Machine) (c : String)
    (cfg : StateConfig) (hcur : m.cur = some c) (hst : fd.state c = some cfg)
    (hty : cfg.type = .view) (hpend : truthy m.pending_error = true) :
    dispatch fd m none c =
      .suspend
        { state_id := c, interface := some cfg.interface,
          error_id := m.pending_error, cs_contact := cfg.cs_contact }
        { m with pending_error := none } ∧
    dispatch fd { m with pending_error := none } none c =
      .suspend
        { state_id := c, interface := some cfg.interface, cs_contact := cfg.cs_contact }
        { m with pending_error := none } := by
  constructor
  · rw [dispatch_eq_view fd m none c cfg hst hty]
    simp only [dispatchView, viewBuild, hpend, if_true]
  · rw [dispatch_eq_view fd { m with pending_error := none } none c cfg hst hty]
    simp only [dispatchView, viewBuild, truthy, Bool.false_eq_true, if_false]

/-- A view session with a pending error tag, for the C6 witness. -/
def mViewErr : Machine :=
  { ctx := [], cur := some "v", stack := [], pending_error := some "e1" }

/-- C6 witness: at the concrete view session `mViewErr` the pending tag "e1"
is emitted once and cleared. -/
theorem view_surfaces_and_clears_pending_witness :
    dispatch fdView mViewErr none "v" =
      .suspend { state_id := "v", interface := some "V", error_id := some "e1" }
        { mViewErr with pending_error := none } :=
  (view_surfaces_and_clears_pending fdView mViewErr "v"
    { type := .view, interface := "V" } rfl rfl rfl (by decide)).1

/-! ### C7 -/

/-- C7: an input with no matching edge from the current state is always a
raised fatal error, never a silent finish: a switch whose context value has
no edge raises UnresolvedSwitch, an action outcome key with no edge raises
UnresolvedAction, and a view event key with no edge raises
UnrecognizedViewEvent — in each case `step` returns the fatal result, not
the finished marker. -/
theorem unresolved_input_fatal (fd : FlowDef) (m : Machine) (c : String) (cfg : StateConfig)
    (hcur : m.cur = some c) (hcc : c ≠ "") (hst : fd.state c = some cfg) :
    (cfg.type = .switch → fd.edge c (ctxGet m.ctx cfg.expression) = none →
      ∀ (e : Option Event) (fuel : Nat),
        stepLoop fd (fuel + 1) m e =
          some (.fatal (.unresolvedSwitch c (ctxGet m.ctx cfg.expression)) m)) ∧
    (cfg.type = .action → ∀ k : String, fd.edge c (some k) = none →
      ∀ fuel : Nat,
        stepLoop fd (fuel + 1) m (some (.key k)) =
          some (.fatal (.unresolvedAction c) m)) ∧
    (cfg.type = .view → ∀ k : String, fd.edge c (some k) = none →
      ∀ fuel : Nat,
        stepLoop fd (fuel + 1) m (some (.key k)) =
          some (.fatal (.unrecognizedViewEvent c) (viewBuild m c cfg).2)) := by
  refine ⟨?_, ?_, ?_⟩
  · intro hty hedge e fuel
    rw [stepLoop_succ fd fuel m e c hcur hcc, dispatch_eq_switch fd m e c cfg hst hty]
    unfold dispatchSwitch
    rw [next_of_edge_none fd m c _ hedge]
    simp [applyCU_none]
  · intro hty k hedge fuel
    rw [stepLoop_succ fd fuel m _ c hcur hcc, dispatch_eq_action fd m _ c cfg hst hty]
    simp only [dispatchAction]
    unfold actionConsume
    rw [next_of_edge_none fd m c _ hedge]
    simp [applyCU_none]
  · intro hty k hedge fuel
    rw [stepLoop_succ fd fuel m _ c hcur hcc, dispatch_eq_view fd m _ c cfg hst hty]
    simp only [dispatchView]
    unfold viewConsume
    rw [next_of_edge_none fd (viewBuild m c cfg).2 c _ hedge]
    simp [truthy, applyCU_none]

/-- A flow with a switch, an action and a view, none of which has any edge,
for the C7 witness. -/
def fdMix : FlowDef :=
  { states := [
      ("sw", { type := .switch, expression := "color" }),
      ("ac", { type := .action }),
      ("vw", { type := .view, interface := "W" })]
    trans := [] }

/-- Session at the edgeless switch. -/
def mSw : Machine :=
  { ctx := [("color", "red")], cur := some "sw", stack := [], pending_error := none }

/-- Session at the edgeless action. -/
def mAc : Machine :=
  { ctx := [], cur := some "ac", stack := [], pending_error := none }

/-- Session at the edgeless view. -/
def mVw : Machine :=
  { ctx := [], cur := some "vw", stack := [], pending_error := none }

/-- C7 witness: the three unmatched inputs each produce their fatal kind. -/
theorem unresolved_input_fatal_witness :
    stepLoop fdMix 1 mSw none =
      some (.fatal (.unresolvedSwitch "sw" (some "red")) mSw) ∧
    stepLoop fdMix 1 mAc (some (.key "oops")) =
      some (.fatal (.unresolvedAction "ac") mAc) ∧
    stepLoop fdMix 1 mVw (some (.key "oops")) =
      some (.fatal (.unrecognizedViewEvent "vw")
        (viewBuild mVw "vw" { type := .view, interface := "W" }).2) :=
  ⟨(unresolved_input_fatal fdMix mSw "sw" { type := .switch, expression := "color" }
      rfl (by decide) rfl).1 rfl rfl none 0,
   (unresolved_input_fatal fdMix mAc "ac" { type := .action }
      rfl (by decide) rfl).2.1 rfl "oops" rfl 0,
   (unresolved_input_fatal fdMix mVw "vw" { type := .view, interface := "W" }
      rfl (by decide) rfl).2.2 rfl "oops" rfl 0⟩

/-! ### C8 -/

/-- C8: a rich event supplied at "resolveUsernameAction" is processed
patch-first: the step is the same as first merging the event's context patch
into the session and then stepping with the plain key `type` — so the
transition lookup sees the patched context — and the example patch
flight_access = yes is readable back (lowercased write) before the lookup. -/
theorem rich_event_patch_before_lookup (fd : FlowDef) (m : Machine) (cfg : StateConfig)
    (ty : String) (patch : Ctx)
    (hcur : m.cur = some "resolveUsernameAction")
    (hst : fd.state "resolveUsernameAction" = some cfg) (hty : cfg.type = .action) :
    dispatch fd m (some (.rich ty patch)) "resolveUsernameAction" =
      dispatch fd (m.applyContextUpdates (some patch)) (some (.key ty))
        "resolveUsernameAction" ∧
    ctxGet (m.applyContextUpdates (some [("flight_access", "yes")])).ctx "flight_access" =
      some "yes" := by
  constructor
  · rw [dispatch_eq_action fd m _ _ cfg hst hty,
      dispatch_eq_action fd (m.applyContextUpdates (some patch)) _ _ cfg hst hty]
    simp only [dispatchAction]
    rw [if_true]
  · have h1 : (m.applyContextUpdates (some [("flight_access", "yes")])).ctx =
        ctxSet m.ctx (lowerStr "flight_access") (lowerStr "yes") := by
      simp only [Machine.applyContextUpdates]
      rw [if_neg (by simp)]
      rfl
    rw [h1, show lowerStr "flight_access" = "flight_access" by decide,
      show lowerStr "yes" = "yes" by decide]
    exact ctxGet_ctxSet m.ctx _ _

/-- A flow whose "resolveUsernameAction" has an "exact" edge, for the C8
witness. -/
def fdRua : FlowDef :=
  { states := [("resolveUsernameAction", { type := .action })]
    trans := [("resolveUsernameAction", [("exact", .bare "next_state")])] }

/-- Session suspended at "resolveUsernameAction". -/
def mRua : Machine :=
  { ctx := [], cur := some "resolveUsernameAction", stack := [], pending_error := none }

/-- C8 witness: the concrete rich event of the claim behaves as
patch-then-plain-key, and flight_access reads back "yes". -/
theorem rich_event_patch_before_lookup_witness :
    dispatch fdRua mRua (some (.rich "exact" [("flight_access", "yes")]))
        "resolveUsernameAction" =
      dispatch fdRua (mRua.applyContextUpdates (some [("flight_access", "yes")]))
        (some (.key "exact")) "resolveUsernameAction" ∧
    ctxGet (mRua.applyContextUpdates (some [("flight_access", "yes")])).ctx "flight_access" =
      some "yes" :=
  rich_event_patch_before_lookup fdRua mRua { type := .action } "exact"
    [("flight_access", "yes")] rfl rfl rfl

/-! ### C9 -/

/-- C9: whenever a switch state's resolution succeeds and the loop continues,
the machine it continues with has no pending error tag: the switch branch
resets the tag to absent after the move, discarding both a previously pending
tag and one carried by the switch's own resolved edge. -/
theorem switch_transition_clears_pending (fd : FlowDef) (m m1 : Machine) (c : String)
    (cfg : StateConfig) (e : Option Event) (hst : fd.state c = some cfg)
    (hty : cfg.type = .switch) (h : dispatch fd m e c = .cont m1) :
    m1.pending_error = none := by
  rw [dispatch_eq_switch fd m e c cfg hst hty] at h
  unfold dispatchSwitch at h
  rcases hr : m.next fd c (ctxGet m.ctx cfg.expression) with ⟨⟨nxt, cu⟩, mr⟩
  simp only [hr] at h
  cases nxt with
  | none => exact absurd h (by simp)
  | some t =>
    injection h with h2
    rw [← h2]

/-- A switch whose resolved edge itself carries an error tag, taken from a
session that already has a pending tag, for the C9 witness. -/
def fdSw9 : FlowDef :=
  { states := [("sw9", { type := .switch, expression := "k" })]
    trans := [("sw9", [("v", .desc (some "t9") (some "edge_err") none)])] }

/-- Session at the switch with an old pending tag. -/
def mSw9 : Machine :=
  { ctx := [("k", "v")], cur := some "sw9", stack := [], pending_error := some "old_err" }

/-- The session after the switch fires. -/
def mSw9After : Machine :=
  { ctx := [("k", "v")], cur := some "t9", stack := [], pending_error := none }

/-- C9 witness: the concrete switch discards both the old pending tag and the
edge's own tag. -/
theorem switch_transition_clears_pending_witness :
    dispatch fdSw9 mSw9 none "sw9" = .cont mSw9After ∧ mSw9After.pending_error = none :=
  ⟨by decide,
    switch_transition_clears_pending fdSw9 mSw9 mSw9After "sw9"
      { type := .switch, expression := "k" } none rfl rfl (by decide)⟩

/-! ### C1 -/

/-- Flow for the C1 counterexample: "x" switches into sub-flow "s" with
member sequence ["a","b","c"]; member "a" is an action whose only edge
("done") targets the outside view "after". -/
def fdC1 : FlowDef :=
  { states := [
      ("x", { type := .switch, expression := "go" }),
      ("s", { type := .subflow, flow := ["a", "b", "c"] }),
      ("a", { type := .action }),
      ("b", { type := .view, interface := "b" }),
      ("c", { type := .view, interface := "c" }),
      ("after", { type := .view, interface := "after" })]
    trans := [
      ("x", [("yes", .bare "s")]),
      ("a", [("done", .bare "after")])] }

/-- Session at the parent state "x" of the C1 counterexample. -/
def m0C1 : Machine :=
  { ctx := [("go", "yes")], cur := some "x", stack := [], pending_error := none }

/-- The session suspended at sub-flow member "a". -/
def m1C1 : Machine :=
  { ctx := [("go", "yes")], cur := some "a", stack := [("s", ["b", "c"])],
    pending_error := none }

/-- The session after member "a" completes: at "after", frame untouched. -/
def m2C1 : Machine :=
  { ctx := [("go", "yes")], cur := some "after", stack := [("s", ["b", "c"])],
    pending_error := none }

/-- C1 counterexample: entering the sub-flow ["a","b","c"] from "x" suspends
at its first member "a", but completing "a" moves the engine straight to
"after" — the target of a's own edge — and NOT to member "b"; the frame
("s", ["b","c"]) stays on the stack and "b", "c" are never visited, because
the stepping loop never consults the stack. -/
theorem subflow_members_not_visited_counterexample :
    stepLoop fdC1 10 m0C1 none =
      some (.suspended { state_id := "a", action := true } m1C1) ∧
    stepLoop fdC1 10 m1C1 (some (.key "done")) =
      some (.suspended { state_id := "after", interface := some "after" } m2C1) ∧
    m2C1.cur = some "after" ∧ ¬ m2C1.cur = some "b" ∧
    m2C1.stack = [("s", ["b", "c"])] := by
  decide

/-- C1 (amended): the helper `_pop_subflow` itself advances-or-pops exactly
as specified — top frame with remaining members yields the next member,
exhausted frames are popped and the next outer frame consulted, and an empty
stack clears the current state (session finished) — but the stepping loop
never invokes it: across any terminated `step` call the stack never
shrinks, so members of an entered sub-flow beyond the first are reached only
through explicit transition edges, not through the stack. -/
theorem popSubflow_spec_and_loop_never_pops :
    (∀ (m : Machine) (tl : List (String × List String)) (sub r0 : String)
        (rtl : List String),
      m.stack = tl ++ [(sub, r0 :: rtl)] →
      m.popSubflow = { m with cur := some r0, stack := tl ++ [(sub, rtl)] }) ∧
    (∀ (m : Machine) (tl : List (String × List String)) (sub : String),
      m.stack = tl ++ [(sub, [])] →
      m.popSubflow = Machine.popSubflow { m with stack := tl }) ∧
    (∀ m : Machine, m.stack = [] → m.popSubflow = { m with cur := none }) ∧
    (∀ (fd : FlowDef) (fuel : Nat) (m : Machine) (e : Option Event) (r : StepRes),
      stepLoop fd fuel m e = some r → m.stack.length ≤ r.machine.stack.length) := by
  refine ⟨?_, ?_, ?_, ?_⟩
  · intro m tl sub r0 rtl h
    have h2 : m.stack.reverse = (sub, r0 :: rtl) :: tl.reverse := by rw [h]; simp
    simp only [Machine.popSubflow, h2, popSubflowAux]
    simp [Machine.mk.injEq]
  · intro m tl sub h
    have h2 : m.stack.reverse = (sub, []) :: tl.reverse := by rw [h]; simp
    simp only [Machine.popSubflow, h2, popSubflowAux]
  · intro m h
    simp only [Machine.popSubflow, h]
    simp [popSubflowAux, Machine.mk.injEq, h]
  · exact fun fd fuel m e r h => (stepLoop_mono fd fuel m e r h).1

/-- A session inside sub-flow "s" with remaining members ["b","c"], for the
C1 witness. -/
def mPop : Machine :=
  { ctx := [], cur := some "a", stack := [("s", ["b", "c"])], pending_error := none }

/-- C1 witness: `_pop_subflow` on the concrete frame yields the next member
"b" and shortens the frame. -/
theorem popSubflow_spec_witness :
    mPop.popSubflow = { mPop with cur := some "b", stack := [("s", ["c"])] } :=
  popSubflow_spec_and_loop_never_pops.1 mPop [] "s" "b" ["c"] rfl

end SM
